import Mathlib

/-!
Verification of the local indexing service (`src/indexer.py`, `src/database.py`,
`src/search.py`, `src/file_utils.py`) against its natural-language specification.

The Python source is shallowly embedded: pure string/byte computations are
translated directly; the stateful indexer and store are modelled as explicit
state passing over a record of database rows, with the filesystem and the
outcome of per-file I/O supplied as an environment.
-/

namespace LocalIndexing

/-! ## file_utils.py -/

/-- The `BINARY_SIGNATURES` list from `src/file_utils.py` lines 10-29, bytes as naturals. -/
def BINARY_SIGNATURES : List (List Nat) :=
  [ [0x00, 0x00, 0x00]
  , [0xff, 0xfe]
  , [0xfe, 0xff]
  , [0xff, 0xfe, 0x00, 0x00]
  , [0x00, 0x00, 0xfe, 0xff]
  , [0x50, 0x4b, 0x03, 0x04]
  , [0x50, 0x4b, 0x05, 0x06]
  , [0x50, 0x4b, 0x07, 0x08]
  , [0x50, 0x4b, 0x03, 0x04]
  , [0x1f, 0x8b]
  , [0x42, 0x5a, 0x68]
  , [0x89, 0x50, 0x4e, 0x47]
  , [0x47, 0x49, 0x46, 0x38, 0x37, 0x61]
  , [0x47, 0x49, 0x46, 0x38, 0x39, 0x61]
  , [0xff, 0xd8, 0xff]
  , [0x49, 0x44, 0x33]
  , [0x52, 0x49, 0x46, 0x46]
  , [0x25, 0x50, 0x44, 0x46] ]

/-- A UTF-8 continuation byte: `0x80..0xBF`. -/
def utf8Cont (b : Nat) : Bool := 0x80 ≤ b && b ≤ 0xBF

/-- UTF-8 validation of a byte stream, decoding at most `n` code points
(Python's strict `utf-8` codec: surrogates and overlong forms rejected).
A truncated multi-byte sequence within the budget is invalid, matching the
decode error raised by `f.read(1024)` at end of input. -/
def utf8ValidN : Nat → List Nat → Bool
  | 0, _ => true
  | _ + 1, [] => true
  | n + 1, b :: rest =>
    if b < 0x80 then utf8ValidN n rest
    else if 0xC2 ≤ b && b ≤ 0xDF then
      match rest with
      | c1 :: r => utf8Cont c1 && utf8ValidN n r
      | [] => false
    else if b == 0xE0 then
      match rest with
      | c1 :: c2 :: r => (0xA0 ≤ c1 && c1 ≤ 0xBF) && utf8Cont c2 && utf8ValidN n r
      | _ => false
    else if (0xE1 ≤ b && b ≤ 0xEC) || b == 0xEE || b == 0xEF then
      match rest with
      | c1 :: c2 :: r => utf8Cont c1 && utf8Cont c2 && utf8ValidN n r
      | _ => false
    else if b == 0xED then
      match rest with
      | c1 :: c2 :: r => (0x80 ≤ c1 && c1 ≤ 0x9F) && utf8Cont c2 && utf8ValidN n r
      | _ => false
    else if b == 0xF0 then
      match rest with
      | c1 :: c2 :: c3 :: r => (0x90 ≤ c1 && c1 ≤ 0xBF) && utf8Cont c2 && utf8Cont c3 && utf8ValidN n r
      | _ => false
    else if 0xF1 ≤ b && b ≤ 0xF3 then
      match rest with
      | c1 :: c2 :: c3 :: r => utf8Cont c1 && utf8Cont c2 && utf8Cont c3 && utf8ValidN n r
      | _ => false
    else if b == 0xF4 then
      match rest with
      | c1 :: c2 :: c3 :: r => (0x80 ≤ c1 && c1 ≤ 0x8F) && utf8Cont c2 && utf8Cont c3 && utf8ValidN n r
      | _ => false
    else false

/-- Validation performed by `content.decode('utf-8')` on the whole chunk: every code point decoded
decodes at least one byte, so a budget of `bs.length` code points validates
the entire stream. -/
def utf8DecodesAll (bs : List Nat) : Bool := utf8ValidN bs.length bs

/-- The `cp1252` validation of at most `n` code points: bytes
`0x81, 0x8D, 0x8F, 0x90, 0x9D` are undefined in cp1252, every other byte maps
to a character. -/
def cp1252ValidN : Nat → List Nat → Bool
  | 0, _ => true
  | _ + 1, [] => true
  | n + 1, b :: rest =>
    if b == 0x81 || b == 0x8D || b == 0x8F || b == 0x90 || b == 0x9D then false
    else cp1252ValidN n rest

/-- Embeds `_is_text_content` from `src/file_utils.py` lines 74-119: binary signature
check, null-byte check, then `content.decode('utf-8')` and on failure
`content.decode('latin-1')`, which is total (every byte maps to a character),
so the final rejection branch returns only after both decodes fail. -/
def isTextContent (content : List Nat) : Bool :=
  if BINARY_SIGNATURES.any (fun sig => sig.isPrefixOf content) then false
  else if content.contains 0 then false
  else if utf8DecodesAll content then true
  else true

/-- Embeds `has_text_extension` from `src/file_utils.py` lines 122-138; the argument
is the already-extracted `Path.suffix`. -/
def textExtensions : List String :=
  [ ".txt", ".md", ".rst", ".log", ".csv", ".json", ".xml", ".html",
    ".htm", ".css", ".js", ".py", ".java", ".c", ".cpp", ".h", ".hpp",
    ".cs", ".rb", ".go", ".rs", ".php", ".sh", ".bat", ".ps1", ".yaml",
    ".yml", ".toml", ".ini", ".cfg", ".conf", ".properties" ]

/-- Python `s.lower()` for the ASCII extension strings of the allow-list. -/
def strToLower (s : String) : String := String.mk (s.data.map Char.toLower)

/-- Extension gate of `is_text_file`. -/
def hasTextExtension (suffix : String) : Bool :=
  textExtensions.contains (strToLower suffix)

/-- Embeds `is_text_file` from `src/file_utils.py` lines 32-71: extension gate, then
(for `check_content`) the first 8 KiB sample is classified; `sample = none`
models an `OSError` while reading, which returns `false`. -/
def isTextFile (suffix : String) (sample : Option (List Nat)) (checkContent : Bool) : Bool :=
  if !hasTextExtension suffix then false
  else if !checkContent then true
  else
    match sample with
    | none => false
    | some chunk => isTextContent chunk

/-- One trial of the `detect_encoding` loop (`src/file_utils.py` lines 183-218):
open in the given encoding and read the first 1024 characters. `latin-1` and
`iso-8859-1` map every byte to a character, so they never fail. -/
def tryRead1KB (enc : String) (content : List Nat) : Bool :=
  if enc == "utf-8" then utf8ValidN 1024 content
  else if enc == "latin-1" then true
  else if enc == "cp1252" then cp1252ValidN 1024 content
  else if enc == "iso-8859-1" then true
  else false

/-- The `for encoding in encodings_to_try` loop of `detect_encoding`,
returning the first encoding whose trial read succeeds. -/
def tryEncodings : List String → List Nat → Option String × Option String
  | [], _ => (none, some "Could not detect encoding")
  | e :: rest, content =>
    if tryRead1KB e content then (some e, none) else tryEncodings rest content

/-- Embeds `detect_encoding` from `src/file_utils.py` lines 141-224 for a readable
file with byte contents `content`: UTF-8 BOM check, then the encoding loop. -/
def detectEncoding (content : List Nat) : Option String × Option String :=
  if content.take 3 = [0xEF, 0xBB, 0xBF] then (some "utf-8-sig", none)
  else tryEncodings ["utf-8", "latin-1", "cp1252", "iso-8859-1"] content

/-! ## String primitives

Core `String` functions such as `String.startsWith` and `String.replace` are
byte-position loops; they are re-expressed here over the underlying character
list with the same semantics as the Python string operations they model. -/

/-- Python `s.startswith(p)`. -/
def strStartsWith (s p : String) : Bool := p.data.isPrefixOf s.data

/-- Python `s.endswith(p)`. -/
def strEndsWith (s p : String) : Bool := p.data.isSuffixOf s.data

/-- Left-to-right non-overlapping replacement, the semantics of Python
`s.replace(old, new)` for a non-empty `old` (the source only replaces `"`).
The fuel argument only bounds the number of replacement steps; every step
consumes at least one character, so fuel equal to the string length is never
exhausted. -/
def replaceFuel (pat sub : List Char) : Nat → List Char → List Char
  | 0, l => l
  | _ + 1, [] => []
  | fuel + 1, c :: rest =>
    if pat.isPrefixOf (c :: rest) then
      sub ++ replaceFuel pat sub fuel (rest.drop (pat.length - 1))
    else
      c :: replaceFuel pat sub fuel rest

/-- Python `s.replace(old, new)` on strings. -/
def strReplace (s pat sub : String) : String :=
  String.mk (replaceFuel pat.data sub.data s.data.length s.data)

/-- Substring containment on character lists, the semantics of Python's
`needle in hay`. -/
def listContainsSub (needle : List Char) : List Char → Bool
  | [] => needle.isEmpty
  | c :: rest => needle.isPrefixOf (c :: rest) || listContainsSub needle rest

/-- Python `sub in hay` on strings. -/
def containsSubstr (hay sub : String) : Bool :=
  listContainsSub sub.data hay.data

/-- Splitting a character list at every occurrence of `sep`. -/
def splitOnChar (sep : Char) : List Char → List (List Char)
  | [] => [[]]
  | c :: rest =>
    if c == sep then [] :: splitOnChar sep rest
    else
      match splitOnChar sep rest with
      | t :: ts => (c :: t) :: ts
      | [] => [[c]]

/-! ## search.py -/

/-- The `special_chars` set of `_escape_fts_query` (`src/search.py` line 90);
its three keyword entries are multi-character strings, checked with the same
`in` operator as the single characters. -/
def specialStrings : List String :=
  ["\"", "'", "-", "*", ":", ".", "(", ")", "AND", "OR", "NOT"]

/-- Embeds `_escape_fts_query` from `src/search.py` lines 78-102. -/
def escapeFtsQuery (query : String) : String :=
  if strStartsWith query "\"" && strEndsWith query "\"" then query
  else if specialStrings.any (fun c => containsSubstr query c) then
    "\"" ++ strReplace query "\"" "\"\"" ++ "\""
  else query

/-- The wrap condition as the specification words it: any of the special
characters anywhere in the query, or `AND`/`OR`/`NOT` occurring as a bare
whitespace-delimited token. -/
def specWrapCondition (query : String) : Bool :=
  (["\"", "'", "-", "*", ":", ".", "(", ")"].any (fun c => containsSubstr query c))
  || ((splitOnChar ' ' query.data).map String.mk).any
        (fun t => t == "AND" || t == "OR" || t == "NOT")

/-! ## Store rows (database.py schema) -/

/-- A row of the `documents` FTS table: `path UNINDEXED, content,
last_modified UNINDEXED`; `content` is the decoded text as characters. -/
structure DocRow where
  path : String
  content : List Char
  last_modified : String
deriving DecidableEq

/-- A row of `file_metadata(path PRIMARY KEY, size, mtime, last_indexed,
encoding, error)`.  `mtime` and `last_indexed` are `REAL` in the schema;
they are carried as integers here, which the claims never arithmetize. -/
structure FileMeta where
  path : String
  size : Nat
  mtime : Int
  last_indexed : Int
  encoding : Option String
  error : Option String
deriving DecidableEq

/-- The logical content of the store: the two tables. -/
structure DBState where
  documents : List DocRow
  file_metadata : List FileMeta
deriving DecidableEq

def emptyDB : DBState := ⟨[], []⟩

/-- Embeds `SELECT ... FROM file_metadata WHERE path = ?` with `fetchone`. -/
def findMeta (db : DBState) (p : String) : Option FileMeta :=
  db.file_metadata.find? (fun m => m.path == p)

/-- The `SearchResult` shape from `src/models.py`; `score` is only ever
compared with zero by the claims, so it is carried as an integer. -/
structure SearchResult where
  path : String
  snippet : List Char
  score : Int
  last_modified : String
deriving DecidableEq

/-- SQL `LIKE` with `%` (any run) and `_` (any one character),
ASCII-case-insensitive as SQLite's default `LIKE` is.  The fuel only bounds
the recursion depth; every step shortens pattern or subject, so fuel
`pattern.length + s.length + 1` is never exhausted. -/
def likeMatchFuel : Nat → List Char → List Char → Bool
  | 0, _, _ => false
  | _ + 1, [], s => s.isEmpty
  | fuel + 1, p :: ps, s =>
    if p == '%' then
      likeMatchFuel fuel ps s ||
        (match s with
         | [] => false
         | _ :: t => likeMatchFuel fuel (p :: ps) t)
    else
      match s with
      | [] => false
      | c :: t =>
        (p == '_' || p.toLower == c.toLower) && likeMatchFuel fuel ps t

/-- SQL `LIKE pattern` applied to a subject string. -/
def likeMatch (pattern s : List Char) : Bool :=
  likeMatchFuel (pattern.length + s.length + 1) pattern s

/-- Lexicographic comparison of character lists by code point, the `BINARY`
collation SQLite applies to `ORDER BY path`. -/
def listLexLE : List Char → List Char → Bool
  | [], _ => true
  | _ :: _, [] => false
  | c :: cs, d :: ds =>
    if c.toNat < d.toNat then true
    else if d.toNat < c.toNat then false
    else listLexLE cs ds

theorem listLexLE_total (a b : List Char) : listLexLE a b = true ∨ listLexLE b a = true := by
  induction a generalizing b with
  | nil => left; rfl
  | cons c cs ih =>
    cases b with
    | nil => right; rfl
    | cons d ds =>
      by_cases h1 : c.toNat < d.toNat
      · left; simp [listLexLE, h1]
      · by_cases h2 : d.toNat < c.toNat
        · right; simp [listLexLE, h2]
        · rcases ih ds with h | h
          · left; simp [listLexLE, h1, h2, h]
          · right; simp [listLexLE, h1, h2, h]

theorem listLexLE_trans {a b c : List Char} (hab : listLexLE a b = true)
    (hbc : listLexLE b c = true) : listLexLE a c = true := by
  induction a generalizing b c with
  | nil => rfl
  | cons x xs ih =>
    cases b with
    | nil => simp [listLexLE] at hab
    | cons y ys =>
      cases c with
      | nil => simp [listLexLE] at hbc
      | cons z zs =>
        simp only [listLexLE] at hab hbc ⊢
        have hab' : x.toNat < y.toNat ∨ (x.toNat = y.toNat ∧ listLexLE xs ys = true) := by
          by_cases h : x.toNat < y.toNat
          · exact Or.inl h
          · by_cases h' : y.toNat < x.toNat
            · simp [h, h'] at hab
            · exact Or.inr ⟨by omega, by simpa [h, h'] using hab⟩
        have hbc' : y.toNat < z.toNat ∨ (y.toNat = z.toNat ∧ listLexLE ys zs = true) := by
          by_cases h : y.toNat < z.toNat
          · exact Or.inl h
          · by_cases h' : z.toNat < y.toNat
            · simp [h, h'] at hbc
            · exact Or.inr ⟨by omega, by simpa [h, h'] using hbc⟩
        rcases hab' with h | ⟨he, ht⟩ <;> rcases hbc' with h2 | ⟨he2, ht2⟩
        · simp [show x.toNat < z.toNat by omega]
        · simp [show x.toNat < z.toNat by omega]
        · simp [show x.toNat < z.toNat by omega]
        · simpa [show ¬ x.toNat < z.toNat by omega, show ¬ z.toNat < x.toNat by omega]
            using ih ht ht2

/-- The row ordering of `ORDER BY path`. -/
def pathLE (a b : DocRow) : Prop := listLexLE a.path.data b.path.data = true

instance : DecidableRel pathLE := fun a b =>
  inferInstanceAs (Decidable (listLexLE a.path.data b.path.data = true))

instance : IsTotal DocRow pathLE := ⟨fun a b => listLexLE_total a.path.data b.path.data⟩

instance : IsTrans DocRow pathLE := ⟨fun _ _ _ h h' => listLexLE_trans h h'⟩

/-- Embeds `search_by_path` from `src/search.py` lines 119-157: rows with
`path LIKE ?` ordered by path, first `limit` of them; per row the snippet is
`substr(content, 1, 200)` with `'...'` appended when that substring has
length exactly 200, and the score the literal `0.0`. -/
def searchByPath (db : DBState) (pattern : String) (limit : Nat) : List SearchResult :=
  let rows := (db.documents.filter (fun d => likeMatch pattern.data d.path.data))
  let ordered := (List.insertionSort pathLE rows).take limit
  ordered.map (fun d =>
    let snip := d.content.take 200
    { path := d.path
      snippet := if snip.length == 200 then snip ++ ['.', '.', '.'] else snip
      score := 0
      last_modified := d.last_modified })

/-! ## indexer.py

`FileIndexer` is embedded as explicit state passing over `DBState`.  The
filesystem and the outcome of the per-file I/O pipeline (`is_text_file`,
`detect_encoding`, `read_text_file`) are supplied by an environment: for each
path either the file is unreadable (`none`) or it has a size, an mtime and an
ingest outcome summarising which step of `index_file` its content reaches. -/

/-- How far `index_file` gets on a file's current content: rejected by the
text-file classifier, failing at `detect_encoding`, failing at
`read_text_file`, or fully decoded. -/
inductive IngestOutcome where
  | notText
  | encodingFail (err : String)
  | readFail (err : String)
  | ok (encoding : String) (content : List Char)
deriving DecidableEq

/-- A file as the indexer observes it: `os.stat` data plus ingest outcome. -/
structure FSFile where
  size : Nat
  mtime : Int
  outcome : IngestOutcome
deriving DecidableEq

/-- The indexer's environment: the filesystem, the result of
`scan_directory`, the composite of `Path` absolutization plus `resolve()`
for specific-path validation, the resolved source root, and
`datetime.fromtimestamp(...).isoformat()`. -/
structure Env where
  fs : String → Option FSFile
  scan : List String
  resolveFn : String → String
  sourceResolved : String
  isoOf : Int → String

/-- Embeds `FileIndexer._save_file_error` (`src/indexer.py` lines 207-219):
`INSERT OR REPLACE INTO file_metadata` with `encoding = NULL` and the error
message; the `documents` table is not touched. -/
def saveFileError (p : String) (size : Nat) (mtime : Int) (clock : Int)
    (err : String) (db : DBState) : DBState :=
  { db with
      file_metadata :=
        db.file_metadata.filter (fun m => !(m.path == p))
          ++ [⟨p, size, mtime, clock, none, some err⟩] }

/-- Embeds `FileIndexer.index_file` (`src/indexer.py` lines 145-205).  `fs p = none`
models the `OSError`/exception path (file vanished or unreadable stats):
caught by the outer `except`, returning `False` with the store untouched.
On success, one transaction deletes both rows for the path and inserts fresh
ones (`error = NULL`). -/
def indexFile (env : Env) (clock : Int) (db : DBState) (p : String) : Bool × DBState :=
  match env.fs p with
  | none => (false, db)
  | some f =>
    match f.outcome with
    | .notText => (false, db)
    | .encodingFail e => (false, saveFileError p f.size f.mtime clock e db)
    | .readFail e => (false, saveFileError p f.size f.mtime clock e db)
    | .ok enc content =>
      (true,
        { documents :=
            db.documents.filter (fun d => !(d.path == p))
              ++ [⟨p, content, env.isoOf f.mtime⟩]
          file_metadata :=
            db.file_metadata.filter (fun m => !(m.path == p))
              ++ [⟨p, f.size, f.mtime, clock, some enc, none⟩] })

/-- Embeds `FileIndexer.remove_deleted_files` (`src/indexer.py` lines 221-249):
fetch all metadata rows, delete (from both tables) every row whose path is
not among the scanned files, counting the deleted metadata rows. -/
def removeDeletedFiles (current : List String) (db : DBState) : Nat × DBState :=
  let stale := db.file_metadata.filter (fun m => !(current.contains m.path))
  let stalePaths := stale.map (·.path)
  (stale.length,
    { documents := db.documents.filter (fun d => !(stalePaths.contains d.path))
      file_metadata := db.file_metadata.filter (fun m => current.contains m.path) })

/-- The per-file decision of `get_changed_files`: a file needs re-indexing
when its stats are readable and either no metadata row exists or the stored
`(size, mtime)` differ; a failing `os.stat` only logs and skips. -/
def changedPred (env : Env) (db : DBState) (p : String) : Bool :=
  match env.fs p with
  | none => false
  | some f =>
    match findMeta db p with
    | none => true
    | some m => !(m.size == f.size) || !(m.mtime == f.mtime)

/-- Embeds `FileIndexer.get_changed_files` (`src/indexer.py` lines 110-143). -/
def getChangedFiles (env : Env) (db : DBState) (files : List String) : List String :=
  files.filter (changedPred env db)

/-- Embeds `FileIndexer._validate_file_path` (`src/indexer.py` lines 42-68):
resolve, then reject unless the resolved string starts with the resolved
source root. -/
def validateFilePath (env : Env) (filepath : String) : Except String String :=
  let resolved := env.resolveFn filepath
  if strStartsWith resolved env.sourceResolved then .ok resolved
  else .error ("Path outside source directory: " ++ filepath)

/-- Accumulated state of the `for filepath in files_to_process` loop of
`refresh_index` (`src/indexer.py` lines 316-324). -/
structure LoopOut where
  processed : Nat
  added : Nat
  updated : Nat
  errors : List String
  db : DBState
deriving DecidableEq

/-- The processing loop of a full refresh: each file is ingested; successes
bump `files_processed` and exactly one of `files_added`/`files_updated`
according to the pre-loop `existing_files` snapshot; failures append
`"Failed to index <path>"`. -/
def processFiles (env : Env) (clock : Int) (existing : List String) :
    List String → DBState → LoopOut
  | [], db => ⟨0, 0, 0, [], db⟩
  | p :: rest, db =>
    let step := indexFile env clock db p
    let t := processFiles env clock existing rest step.2
    if step.1 then
      { t with
          processed := t.processed + 1
          added := if existing.contains p then t.added else t.added + 1
          updated := if existing.contains p then t.updated + 1 else t.updated }
    else
      { t with errors := ("Failed to index " ++ p) :: t.errors }

/-- The `RefreshResult` shape from `src/models.py`; `duration_seconds` is
carried as an integer stand-in for the rounded float. -/
structure RefreshResult where
  success : Bool
  files_processed : Nat
  files_added : Nat
  files_updated : Nat
  files_removed : Nat
  duration_seconds : Int
  errors : List String
deriving DecidableEq

/-- Embeds `FileIndexer.refresh_index` (`src/indexer.py` lines 251-342) without the
outer `except` (see `refreshExn`).  `if specific_file:` is Python truthiness:
both `None` and `""` take the full-scan branch.  Returns the result together
with the store state. -/
def refreshIndex (env : Env) (clock dur : Int) (specificFile : Option String)
    (force : Bool) (db : DBState) : RefreshResult × DBState :=
  if specificFile.getD "" ≠ "" then
    let s := specificFile.getD ""
    match validateFilePath env s with
    | .error msg => (⟨false, 0, 0, 0, 0, dur, [msg]⟩, db)
    | .ok filepath =>
      if (env.fs filepath).isSome then
        let existing := (findMeta db filepath).isSome
        let step := indexFile env clock db filepath
        if step.1 then
          (⟨true, 1, if existing then 0 else 1, if existing then 1 else 0, 0, dur, []⟩,
            step.2)
        else
          (⟨false, 0, 0, 0, 0, dur, ["Failed to index " ++ filepath]⟩, step.2)
      else (⟨false, 0, 0, 0, 0, dur, ["File not found: " ++ filepath]⟩, db)
  else
    let allFiles := env.scan
    let toProcess := if force then allFiles else getChangedFiles env db allFiles
    let existing := db.file_metadata.map (·.path)
    let t := processFiles env clock existing toProcess db
    let swept := removeDeletedFiles allFiles t.db
    (⟨t.errors.isEmpty, t.processed, t.added, t.updated, swept.1, dur, t.errors⟩, swept.2)

/-- The `except Exception` branch of `refresh_index` (`src/indexer.py` lines
336-342): the counters accumulated so far are reported with `success=False`
and the exception text appended to the errors. -/
def refreshExn (t : LoopOut) (removed : Nat) (emsg : String) (dur : Int) : RefreshResult :=
  ⟨false, t.processed, t.added, t.updated, removed, dur, t.errors ++ [emsg]⟩

/-! ## Reachable store states (for the data-model invariant)

The store is mutated only by `index_file` (successful ingest or failed-ingest
recording) and the deleted-file sweep; each step may observe a different
filesystem. -/

/-- Store states reachable from the fresh empty schema by the indexer's
operations. -/
inductive Reachable : DBState → Prop where
  | init : Reachable emptyDB
  | ingest (env : Env) (clock : Int) (p : String) {db : DBState} :
      Reachable db → Reachable (indexFile env clock db p).2
  | sweep (current : List String) {db : DBState} :
      Reachable db → Reachable (removeDeletedFiles current db).2

/-- The invariant as the specification states it: every `documents` row has a
metadata row with the same path and `error` absent, and a metadata row
without a matching document has `error` present. -/
def specInvariant (db : DBState) : Bool :=
  db.documents.all
    (fun d => db.file_metadata.any (fun m => m.path == d.path && m.error == none))
  && db.file_metadata.all
    (fun m => db.documents.any (fun d => d.path == m.path) || !(m.error == none))

/-- The invariant the code actually maintains: every `documents` row has a
metadata row with the same path (its `error` may be present, see the
counterexample), and a metadata row with `error` absent has a matching
`documents` row. -/
def codeInvariant (db : DBState) : Bool :=
  db.documents.all
    (fun d => db.file_metadata.any (fun m => m.path == d.path))
  && db.file_metadata.all
    (fun m => !(m.error == none) || db.documents.any (fun d => d.path == m.path))

/-! ## database.py

The on-disk side of the store: the main database file (as bytes), the
write-ahead-log and shared-memory files, and whether a test connection on the
current file can execute `SELECT 1`. -/

/-- The three on-disk files of the store plus the observable behaviour of a
test connection on the current database file. -/
structure DbFs where
  dbFile : Option (List Nat)
  walExists : Bool
  shmExists : Bool
  selectOneOk : Bool
deriving DecidableEq

def MIN_SQLITE_FILE_SIZE : Nat := 100

/-- The bytes `b'SQLite format 3\x00'` (`src/database.py` line 15). -/
def SQLITE_HEADER_SIGNATURE : List Nat :=
  [0x53, 0x51, 0x4C, 0x69, 0x74, 0x65, 0x20, 0x66, 0x6F, 0x72, 0x6D, 0x61, 0x74,
   0x20, 0x33, 0x00]

/-- Embeds `Database._validate_existing_database` (`src/database.py` lines 110-176):
size at least 100 bytes, first 16 bytes equal to the SQLite magic, and a test
connection able to run `SELECT 1`. -/
def validateExistingDatabase (fs : DbFs) (bytes : List Nat) : Bool :=
  if bytes.length < MIN_SQLITE_FILE_SIZE then false
  else if !(bytes.take 16 == SQLITE_HEADER_SIGNATURE) then false
  else fs.selectOneOk

/-- Embeds `Database._remove_database_files` (`src/database.py` lines 77-108):
unlink the database, `-wal` and `-shm` files when present. -/
def removeDatabaseFiles (fs : DbFs) : DbFs :=
  { fs with dbFile := none, walExists := false, shmExists := false }

/-- The store as constructed: its logical contents and whether
`PRAGMA integrity_check` reports `ok`. -/
structure Store where
  contents : DBState
  intact : Bool
deriving DecidableEq

/-- Embeds `Database.check_integrity` (`src/database.py` lines 289-319). -/
def checkIntegrity (s : Store) : Bool := s.intact

/-- Embeds `Database._create_schema` (`src/database.py` lines 178-232): remove any
existing files ("clean slate"), then create a fresh connection (which creates
the file, with bytes `freshBytes` written by the engine) and execute the
schema DDL.  Modelled I/O fact: executing `SCHEMA_SQL` on a newly created
database yields empty `documents` and `file_metadata` tables and a database
that passes `integrity_check`, and its file can serve `SELECT 1`. -/
def createSchema (freshBytes : List Nat) (fs : DbFs) : Store × DbFs :=
  let fs1 := if fs.dbFile.isSome then removeDatabaseFiles fs else fs
  (⟨emptyDB, true⟩, { fs1 with dbFile := some freshBytes, selectOneOk := true })

/-- Embeds `Database._ensure_schema` (`src/database.py` lines 59-75), the body of the
constructor: validate an existing file, remove all three files when invalid,
then `_create_schema`. -/
def ensureSchema (freshBytes : List Nat) (fs : DbFs) : Store × DbFs :=
  let fs1 :=
    match fs.dbFile with
    | some bytes =>
      if validateExistingDatabase fs bytes then fs else removeDatabaseFiles fs
    | none => fs
  createSchema freshBytes fs1

/-! ## Concrete instances used by counterexamples and witnesses -/

/-- The bytes of `b"Corrupted data!"` from the specification's store-recovery
scenario. -/
def corruptedBytes : List Nat :=
  [67, 111, 114, 114, 117, 112, 116, 101, 100, 32, 100, 97, 116, 97, 33]

/-- A filesystem state whose database file holds `b"Corrupted data!"`. -/
def corruptedFs : DbFs := ⟨some corruptedBytes, true, true, true⟩

/-- An environment in which path `"p"` is a small decodable text file. -/
def envOkP : Env :=
  ⟨fun q => if q == "p" then some ⟨2, 1, .ok "utf-8" ['h', 'i']⟩ else none,
    [], id, "", fun _ => "iso"⟩

/-- The same path later: its content changed so that `index_file` now fails
at encoding detection. -/
def envFailP : Env :=
  ⟨fun q => if q == "p" then some ⟨2, 5, .encodingFail "Cannot open file"⟩ else none,
    [], id, "", fun _ => "iso"⟩

/-- Store state after indexing `"p"` successfully and then recording a
failed re-ingest of the same path. -/
def badDB : DBState :=
  (indexFile envFailP 101 (indexFile envOkP 100 emptyDB "p").2 "p").2

/-- Environment whose resolver leaves paths untouched, with source root
`"/src"`: relative traversals resolve outside the root. -/
def envOutside : Env := ⟨fun _ => none, [], id, "/src", fun _ => "iso"⟩

/-- A quiescent single-file environment for the refresh-idempotence witness. -/
def envQuiet : Env :=
  ⟨fun q => if q == "a" then some ⟨3, 7, .ok "utf-8" ['x']⟩ else none,
    ["a"], id, "", fun _ => "iso"⟩

/-- A store holding one document whose content is exactly 200 characters. -/
def dbExact200 : DBState := ⟨[⟨"p", List.replicate 200 'a', "t"⟩], []⟩

/-! ## Theorems -/

/-- C7: for every readable file, `detect_encoding` returns a non-none
encoding — `utf-8-sig` on a UTF-8 BOM, otherwise `utf-8` if the first 1 KiB
decodes as UTF-8 and else `latin-1` (the first of the remaining candidates,
which always succeeds) — and the `"Could not detect encoding"` failure
branch is never taken. -/
theorem c7_detect_encoding_total (content : List Nat) :
    detectEncoding content =
      (some (if content.take 3 = [0xEF, 0xBB, 0xBF] then "utf-8-sig"
             else if utf8ValidN 1024 content then "utf-8" else "latin-1"),
        none)
    ∧ (detectEncoding content).1.isSome = true := by
  constructor
  · by_cases hb : content.take 3 = [0xEF, 0xBB, 0xBF]
    · simp [detectEncoding, hb]
    · by_cases hu : utf8ValidN 1024 content = true <;>
        simp [detectEncoding, tryEncodings, tryRead1KB, hb, hu]
  · by_cases hb : content.take 3 = [0xEF, 0xBB, 0xBF]
    · simp [detectEncoding, hb]
    · by_cases hu : utf8ValidN 1024 content = true <;>
        simp [detectEncoding, tryEncodings, tryRead1KB, hb, hu]

/-- C9: a sample beginning with none of the binary signatures and containing
no null byte passes the content gate whatever its bytes are — the
decode-failure rejection is unreachable since `latin-1` decoding is total —
and hence `is_text_file` accepts every readable allow-listed file with such
a sample. -/
theorem c9_content_gate_accepts (chunk : List Nat) (suffix : String)
    (hsig : BINARY_SIGNATURES.all (fun sig => !(sig.isPrefixOf chunk)) = true)
    (hnull : chunk.contains 0 = false)
    (hext : hasTextExtension suffix = true) :
    isTextContent chunk = true ∧ isTextFile suffix (some chunk) true = true := by
  have hany : BINARY_SIGNATURES.any (fun sig => sig.isPrefixOf chunk) = false := by
    simp only [List.all_eq_true] at hsig
    simp only [List.any_eq_false]
    intro sig hs
    have h := hsig sig hs
    simp only [Bool.not_eq_true'] at h
    simp [h]
  have hmem : (0 : Nat) ∉ chunk := by simpa using hnull
  have hcontent : isTextContent chunk = true := by
    unfold isTextContent
    simp [hany, hmem, ite_self]
  refine ⟨hcontent, ?_⟩
  unfold isTextFile
  simp [hext, hcontent]

/-- C9 witness: a two-byte ASCII sample under extension `.txt`. -/
theorem c9_witness :
    BINARY_SIGNATURES.all (fun sig => !(sig.isPrefixOf [104, 105])) = true
    ∧ [104, 105].contains 0 = false
    ∧ hasTextExtension ".txt" = true
    ∧ (isTextContent [104, 105] = true ∧ isTextFile ".txt" (some [104, 105]) true = true) :=
  ⟨by decide, by decide, by decide,
    c9_content_gate_accepts [104, 105] ".txt" (by decide) (by decide) (by decide)⟩

/-- C6 counterexample: `"BAND"` is not quote-delimited, contains none of the
special characters and none of `AND`/`OR`/`NOT` as a bare token, yet
`_escape_fts_query` wraps it (the membership test
`'AND' in query` is substring containment, not token matching), so the query
is not passed through unchanged as the claim states. -/
theorem c6_counterexample :
    (strStartsWith "BAND" "\"" && strEndsWith "BAND" "\"") = false
    ∧ specWrapCondition "BAND" = false
    ∧ escapeFtsQuery "BAND" ≠ "BAND" := by
  refine ⟨by decide, by decide, by decide⟩

/-- C6 amended: for every query that does not both start and end with a
double quote, the normalization wraps the whole query in double quotes
(after doubling any internal quote) exactly when the query contains any of
the characters `" ' - * : . ( )` or the substrings `AND`, `OR`, `NOT`
(matched anywhere, not only as bare tokens); otherwise it is unchanged. -/
theorem c6_escape_characterization (q : String)
    (h : ¬(strStartsWith q "\"" = true ∧ strEndsWith q "\"" = true)) :
    escapeFtsQuery q =
      if specialStrings.any (fun c => containsSubstr q c)
      then "\"" ++ strReplace q "\"" "\"\"" ++ "\"" else q := by
  have hse : (strStartsWith q "\"" && strEndsWith q "\"") = false := by
    cases hs : strStartsWith q "\"" <;> cases he : strEndsWith q "\"" <;> simp_all
  unfold escapeFtsQuery
  simp [hse]

/-- C6 witness: `"a.b"` is not quote-delimited and contains `.`, so it is
wrapped. -/
theorem c6_witness :
    (¬(strStartsWith "a.b" "\"" = true ∧ strEndsWith "a.b" "\"" = true))
    ∧ escapeFtsQuery "a.b" =
        (if specialStrings.any (fun c => containsSubstr "a.b" c)
         then "\"" ++ strReplace "a.b" "\"" "\"\"" ++ "\"" else "a.b") :=
  ⟨by decide, c6_escape_characterization "a.b" (by decide)⟩

/-- C10: calling `refresh_index` with `specific_file = ""` takes the full
directory-refresh branch — Python truthiness makes the empty string
indistinguishable from `None` — so it is never validated as a path and can
produce neither a `"File not found"` nor a `"Path outside source directory"`
error. -/
theorem c10_empty_string_full_refresh (env : Env) (clock dur : Int)
    (force : Bool) (db : DBState) :
    refreshIndex env clock dur (some "") force db
      = refreshIndex env clock dur none force db := rfl

/-- C2: a specific path whose resolved form does not start with the resolved
source root is rejected: `success=false`, all four counters zero, the single
error `"Path outside source directory: <input>"` with the original argument,
and the store untouched.  (The hypothesis `s ≠ ""` is implied under real
path resolution, where `""` resolves to the source root itself and is
dispatched to the full-scan branch.) -/
theorem c2_path_outside_rejected (env : Env) (clock dur : Int) (force : Bool)
    (db : DBState) (s : String) (hne : s ≠ "")
    (hout : strStartsWith (env.resolveFn s) env.sourceResolved = false) :
    refreshIndex env clock dur (some s) force db =
      (⟨false, 0, 0, 0, 0, dur, ["Path outside source directory: " ++ s]⟩, db) := by
  unfold refreshIndex validateFilePath
  simp [hne, hout]

/-- C2 witness: the specification's scenario `refresh_index("../../etc/passwd")`
under a resolver that leaves the traversal outside `"/src"`. -/
theorem c2_witness :
    ("../../etc/passwd" ≠ ""
      ∧ strStartsWith (envOutside.resolveFn "../../etc/passwd") envOutside.sourceResolved = false)
    ∧ refreshIndex envOutside 0 0 (some "../../etc/passwd") false emptyDB =
        (⟨false, 0, 0, 0, 0, 0, ["Path outside source directory: ../../etc/passwd"]⟩,
          emptyDB) :=
  ⟨⟨by decide, by decide⟩,
    c2_path_outside_rejected envOutside 0 0 false emptyDB "../../etc/passwd"
      (by decide) (by decide)⟩

/-- C3: constructing the store over an invalid database file — too small, or
wrong 16-byte magic, or a test connection unable to run `SELECT 1` — removes
the database, WAL and SHM files and recreates a fresh empty schema: the
resulting store has zero documents and passes `check_integrity`. -/
theorem c3_corrupt_db_recreated (freshBytes : List Nat) (fs : DbFs) (bytes : List Nat)
    (hfile : fs.dbFile = some bytes)
    (hbad : bytes.length < 100 ∨ ¬ bytes.take 16 = SQLITE_HEADER_SIGNATURE
              ∨ fs.selectOneOk = false) :
    validateExistingDatabase fs bytes = false
    ∧ (ensureSchema freshBytes fs).1.contents.documents = []
    ∧ (ensureSchema freshBytes fs).1.contents.file_metadata = []
    ∧ checkIntegrity (ensureSchema freshBytes fs).1 = true
    ∧ (ensureSchema freshBytes fs).2.dbFile = some freshBytes
    ∧ (ensureSchema freshBytes fs).2.walExists = false
    ∧ (ensureSchema freshBytes fs).2.shmExists = false := by
  have hval : validateExistingDatabase fs bytes = false := by
    unfold validateExistingDatabase MIN_SQLITE_FILE_SIZE
    rcases hbad with h | h | h
    · simp [h]
    · by_cases h1 : bytes.length < 100 <;> simp [h1, h]
    · by_cases h1 : bytes.length < 100
      · simp [h1]
      · by_cases h2 : bytes.take 16 = SQLITE_HEADER_SIGNATURE <;> simp [h1, h2, h]
  refine ⟨hval, ?_, ?_, ?_, ?_, ?_, ?_⟩ <;>
    simp [ensureSchema, createSchema, hfile, hval, removeDatabaseFiles,
      checkIntegrity, emptyDB]

/-- C3 witness: the specification's scenario — a database file overwritten
with `b"Corrupted data!"` (15 bytes, below the 100-byte minimum). -/
theorem c3_witness :
    (corruptedFs.dbFile = some corruptedBytes ∧ corruptedBytes.length < 100)
    ∧ (validateExistingDatabase corruptedFs corruptedBytes = false
       ∧ (ensureSchema [] corruptedFs).1.contents.documents = []
       ∧ (ensureSchema [] corruptedFs).1.contents.file_metadata = []
       ∧ checkIntegrity (ensureSchema [] corruptedFs).1 = true
       ∧ (ensureSchema [] corruptedFs).2.dbFile = some []
       ∧ (ensureSchema [] corruptedFs).2.walExists = false
       ∧ (ensureSchema [] corruptedFs).2.shmExists = false) :=
  ⟨⟨rfl, by decide⟩,
    c3_corrupt_db_recreated [] corruptedFs corruptedBytes rfl (Or.inl (by decide))⟩

set_option maxRecDepth 10000 in
/-- C8 counterexample: a stored document whose content is exactly 200
characters long is not truncated by the 200-character snippet, yet
`search_by_path` still appends `"..."` (the code tests
`len(substr) == 200`, which also fires at exactly 200), contradicting the
claim's "if and only if the content was longer than 200 characters". -/
theorem c8_counterexample :
    searchByPath dbExact200 "p" 10 =
        [⟨"p", List.replicate 200 'a' ++ ['.', '.', '.'], 0, "t"⟩]
    ∧ ¬ 200 < (List.replicate 200 'a' : List Char).length := by
  exact ⟨by decide, by decide⟩

/-- C8 amended: every result of `search_by_path(pattern, limit)` carries
score 0 and the fields of some stored document, with snippet equal to the
leading 200 characters of that document's content with `"..."` appended if
and only if the content is at least 200 characters long (not: strictly
longer); at most `limit` results are returned, ordered by path. -/
theorem c8_search_by_path_characterization (db : DBState) (pattern : String)
    (limit : Nat) :
    (searchByPath db pattern limit).length ≤ limit
    ∧ List.Pairwise (fun a b : SearchResult => listLexLE a.path.data b.path.data = true)
        (searchByPath db pattern limit)
    ∧ ∀ r ∈ searchByPath db pattern limit,
        r.score = 0 ∧
        ∃ d ∈ db.documents,
          r.path = d.path ∧ r.last_modified = d.last_modified ∧
          r.snippet = (if 200 ≤ d.content.length
                       then d.content.take 200 ++ ['.', '.', '.'] else d.content) := by
  refine ⟨?_, ?_, ?_⟩
  · simp only [searchByPath, List.length_map]
    rw [List.length_take]
    exact min_le_left _ _
  · simp only [searchByPath]
    rw [List.pairwise_map]
    refine List.Pairwise.sublist (List.take_sublist _ _) ?_
    exact List.sorted_insertionSort pathLE _
  · intro r hr
    simp only [searchByPath, List.mem_map] at hr
    obtain ⟨d, hd, hrd⟩ := hr
    have hd1 : d ∈ List.insertionSort pathLE
        (db.documents.filter (fun d => likeMatch pattern.data d.path.data)) :=
      (List.take_sublist _ _).mem hd
    have hd2 : d ∈ db.documents :=
      (List.mem_filter.mp ((List.perm_insertionSort pathLE _).mem_iff.mp hd1)).1
    subst hrd
    refine ⟨rfl, d, hd2, rfl, rfl, ?_⟩
    by_cases hlen : 200 ≤ d.content.length
    · have : (d.content.take 200).length = 200 := by
        rw [List.length_take]
        omega
      simp [this, hlen]
    · have hlt : d.content.length < 200 := by omega
      have h200 : (d.content.take 200).length ≠ 200 := by
        rw [List.length_take]
        omega
      have : d.content.take 200 = d.content :=
        List.take_of_length_le (by omega)
      simp [h200, hlen, this]
      omega

/-- In the processing loop, every success bumps `files_processed` and exactly
one of `files_added`/`files_updated`, so the sum identity is a loop
invariant. -/
theorem processFiles_counts (env : Env) (clock : Int) (existing : List String) :
    ∀ (L : List String) (db : DBState),
      (processFiles env clock existing L db).processed =
        (processFiles env clock existing L db).added +
          (processFiles env clock existing L db).updated := by
  intro L
  induction L with
  | nil => intro db; rfl
  | cons p rest ih =>
    intro db
    simp only [processFiles]
    cases hs : (indexFile env clock db p).1 <;>
      cases hc : existing.contains p <;>
      simp [hs, hc, ih ((indexFile env clock db p).2)] <;>
      omega

/-- C4: every `RefreshResult` — from the specific-file branch, the full-scan
branch, or the `except` branch that reports the counters accumulated when an
internal exception is raised — satisfies
`files_processed = files_added + files_updated` and
`success = true ↔ errors = []`. -/
theorem c4_refresh_result_invariants :
    (∀ (env : Env) (clock dur : Int) (s : Option String) (force : Bool) (db : DBState),
      (refreshIndex env clock dur s force db).1.files_processed =
          (refreshIndex env clock dur s force db).1.files_added +
            (refreshIndex env clock dur s force db).1.files_updated
      ∧ ((refreshIndex env clock dur s force db).1.success = true ↔
           (refreshIndex env clock dur s force db).1.errors = []))
    ∧ (∀ (env : Env) (clock dur : Int) (existing L : List String) (db : DBState)
         (removed : Nat) (emsg : String),
      (refreshExn (processFiles env clock existing L db) removed emsg dur).files_processed =
          (refreshExn (processFiles env clock existing L db) removed emsg dur).files_added +
            (refreshExn (processFiles env clock existing L db) removed emsg dur).files_updated
      ∧ ((refreshExn (processFiles env clock existing L db) removed emsg dur).success = true ↔
           (refreshExn (processFiles env clock existing L db) removed emsg dur).errors = [])) := by
  constructor
  · intro env clock dur s force db
    by_cases hs : s.getD "" ≠ ""
    · simp only [refreshIndex, if_pos hs]
      cases hv : validateFilePath env (s.getD "") with
      | error msg => simp
      | ok filepath =>
        by_cases he : (env.fs filepath).isSome
        · cases hstep : (indexFile env clock db filepath).1 <;>
            cases hex : (findMeta db filepath).isSome <;>
            simp [he, hstep, hex]
        · simp [he]
    · simp only [refreshIndex, if_neg hs]
      constructor
      · exact processFiles_counts env clock _ _ db
      · simp [List.isEmpty_iff]
  · intro env clock dur existing L db removed emsg
    refine ⟨processFiles_counts env clock existing L db, ?_⟩
    simp [refreshExn]

/-- Propositional form of `codeInvariant`. -/
theorem codeInvariant_iff (db : DBState) :
    codeInvariant db = true ↔
      ((∀ d ∈ db.documents, ∃ m ∈ db.file_metadata, m.path = d.path)
        ∧ (∀ m ∈ db.file_metadata, m.error = none → ∃ d ∈ db.documents, d.path = m.path)) := by
  simp only [codeInvariant, Bool.and_eq_true, List.all_eq_true, List.any_eq_true,
    Bool.or_eq_true, Bool.not_eq_true', beq_iff_eq, beq_eq_false_iff_ne, ne_eq]
  constructor
  · rintro ⟨h1, h2⟩
    refine ⟨fun d hd => h1 d hd, fun m hm he => ?_⟩
    rcases h2 m hm with h | h
    · exact absurd he h
    · exact h
  · rintro ⟨h1, h2⟩
    refine ⟨fun d hd => h1 d hd, fun m hm => ?_⟩
    by_cases he : m.error = none
    · exact Or.inr (h2 m hm he)
    · exact Or.inl he

/-- The operation `_save_file_error` preserves the code's invariant: the replaced metadata
row keeps the path of any stale document, and the inserted row carries an
error. -/
theorem codeInvariant_saveFileError (p : String) (size : Nat) (mtime clock : Int)
    (err : String) (db : DBState) (h : codeInvariant db = true) :
    codeInvariant (saveFileError p size mtime clock err db) = true := by
  rw [codeInvariant_iff] at h ⊢
  obtain ⟨h1, h2⟩ := h
  constructor
  · intro d hd
    simp only [saveFileError] at hd ⊢
    obtain ⟨m, hm, hmp⟩ := h1 d hd
    by_cases hpq : m.path = p
    · exact ⟨⟨p, size, mtime, clock, none, some err⟩, by simp, by simp [← hpq, hmp]⟩
    · refine ⟨m, ?_, hmp⟩
      simp only [List.mem_append, List.mem_filter]
      exact Or.inl ⟨hm, by simp [hpq]⟩
  · intro m hm he
    simp only [saveFileError, List.mem_append, List.mem_filter,
      List.mem_singleton] at hm
    rcases hm with ⟨hm, _⟩ | hm
    · exact h2 m hm he
    · subst hm; simp at he

/-- The operation `index_file` preserves the code's invariant in all its outcomes. -/
theorem codeInvariant_indexFile (env : Env) (clock : Int) (db : DBState) (p : String)
    (h : codeInvariant db = true) :
    codeInvariant (indexFile env clock db p).2 = true := by
  unfold indexFile
  cases hf : env.fs p with
  | none => exact h
  | some f =>
    obtain ⟨fsize, fmtime, fo⟩ := f
    cases fo with
    | notText => exact h
    | encodingFail e => exact codeInvariant_saveFileError p fsize fmtime clock e db h
    | readFail e => exact codeInvariant_saveFileError p fsize fmtime clock e db h
    | ok enc content =>
      rw [codeInvariant_iff] at h ⊢
      obtain ⟨h1, h2⟩ := h
      constructor
      · intro d hd
        simp only [List.mem_append, List.mem_filter, List.mem_singleton] at hd ⊢
        rcases hd with ⟨hd, hdp⟩ | hd
        · obtain ⟨m, hm, hmp⟩ := h1 d hd
          refine ⟨m, Or.inl ⟨hm, ?_⟩, hmp⟩
          simp only [Bool.not_eq_true', beq_eq_false_iff_ne, ne_eq]
          intro hcon
          rw [← hmp, hcon] at hdp
          simp at hdp
        · subst hd
          exact ⟨⟨p, fsize, fmtime, clock, some enc, none⟩, Or.inr rfl, rfl⟩
      · intro m hm he
        simp only [List.mem_append, List.mem_filter, List.mem_singleton] at hm ⊢
        rcases hm with ⟨hm, hmp⟩ | hm
        · obtain ⟨d, hd, hdp⟩ := h2 m hm he
          refine ⟨d, Or.inl ⟨hd, ?_⟩, hdp⟩
          simp only [Bool.not_eq_true', beq_eq_false_iff_ne, ne_eq]
          intro hcon
          rw [← hdp, hcon] at hmp
          simp at hmp
        · subst hm
          exact ⟨⟨p, content, env.isoOf fmtime⟩, Or.inr rfl, rfl⟩

/-- The metadata table after the sweep. -/
theorem removeDeletedFiles_metadata (current : List String) (db : DBState) :
    (removeDeletedFiles current db).2.file_metadata
      = db.file_metadata.filter (fun m => current.contains m.path) := rfl

/-- The documents table after the sweep. -/
theorem removeDeletedFiles_documents (current : List String) (db : DBState) :
    (removeDeletedFiles current db).2.documents
      = db.documents.filter
          (fun d => !(((db.file_metadata.filter
              (fun m => !(current.contains m.path))).map (·.path)).contains d.path)) := rfl

/-- The removal count of the sweep. -/
theorem removeDeletedFiles_count (current : List String) (db : DBState) :
    (removeDeletedFiles current db).1
      = (db.file_metadata.filter (fun m => !(current.contains m.path))).length := rfl

/-- The deleted-file sweep preserves the code's invariant: rows for a path
are kept or removed together. -/
theorem codeInvariant_sweep (current : List String) (db : DBState)
    (h : codeInvariant db = true) :
    codeInvariant (removeDeletedFiles current db).2 = true := by
  rw [codeInvariant_iff] at h ⊢
  obtain ⟨h1, h2⟩ := h
  rw [removeDeletedFiles_metadata, removeDeletedFiles_documents]
  constructor
  · intro d hd
    rw [List.mem_filter] at hd
    obtain ⟨hd, hkeep⟩ := hd
    have hkeep' : d.path ∉ (db.file_metadata.filter
        (fun m => !(current.contains m.path))).map (·.path) := by
      simpa using hkeep
    obtain ⟨m, hm, hmp⟩ := h1 d hd
    refine ⟨m, List.mem_filter.mpr ⟨hm, ?_⟩, hmp⟩
    by_contra hnc
    have hmem : m.path ∈ (db.file_metadata.filter
        (fun m => !(current.contains m.path))).map (·.path) :=
      List.mem_map_of_mem _ (List.mem_filter.mpr ⟨hm, by simpa using hnc⟩)
    rw [hmp] at hmem
    exact hkeep' hmem
  · intro m hm he
    rw [List.mem_filter] at hm
    obtain ⟨hm, hkeep⟩ := hm
    have hkeep' : m.path ∈ current := by simpa using hkeep
    obtain ⟨d, hd, hdp⟩ := h2 m hm he
    refine ⟨d, List.mem_filter.mpr ⟨hd, ?_⟩, hdp⟩
    have hnotin : d.path ∉ (db.file_metadata.filter
        (fun m => !(current.contains m.path))).map (·.path) := by
      intro hmem
      obtain ⟨ms, hms, hmsp⟩ := List.mem_map.mp hmem
      obtain ⟨_, hpred⟩ := List.mem_filter.mp hms
      have : ms.path ∉ current := by simpa using hpred
      rw [hmsp, hdp] at this
      exact this hkeep'
    simpa using hnotin

/-- C1 counterexample: index `"p"` successfully, then let an ingest of the
same path fail at encoding detection.  `_save_file_error` replaces only the
metadata row (its `INSERT OR REPLACE` never touches `documents`), so the
stale `documents` row survives while its metadata row now carries an error —
the claimed invariant is false in a reachable state, precisely in the
"previously indexed path fails at encoding detection" scenario the claim
singles out. -/
theorem c1_counterexample : Reachable badDB ∧ specInvariant badDB = false :=
  ⟨Reachable.ingest envFailP 101 "p" (Reachable.ingest envOkP 100 "p" Reachable.init),
    by decide⟩

/-- C1 amended: in every reachable store state, every `documents` row has a
`file_metadata` row with the same path, and a metadata row whose `error` is
absent has a matching `documents` row (equivalently, a metadata row without
a matching document has `error` present); but a `documents` row may coexist
with a metadata row whose `error` is present — the stale document left
behind when an ingest of a previously indexed path fails at encoding
detection or content read. -/
theorem c1_reachable_code_invariant (db : DBState) (h : Reachable db) :
    codeInvariant db = true := by
  induction h with
  | init => rfl
  | ingest env clock p _ ih => exact codeInvariant_indexFile env clock _ p ih
  | sweep current _ ih => exact codeInvariant_sweep current _ ih

/-- C1 witness: the amended invariant evaluated in the two-step reachable
state of the counterexample. -/
theorem c1_witness : codeInvariant badDB = true :=
  c1_reachable_code_invariant badDB
    (Reachable.ingest envFailP 101 "p" (Reachable.ingest envOkP 100 "p" Reachable.init))

/-- Deleting every row of a path and appending a fresh row for it does not
change which row `fetchone` sees for a different path. -/
theorem find?_replace_ne (l : List FileMeta) (row : FileMeta) (p q : String)
    (hrow : row.path = p) (hne : q ≠ p) :
    ((l.filter (fun m => !(m.path == p))) ++ [row]).find? (fun m => m.path == q)
      = l.find? (fun m => m.path == q) := by
  induction l with
  | nil =>
    have hq : ¬ (row.path == q) = true := by
      simp only [beq_iff_eq, hrow]
      exact fun h => hne h.symm
    show ([row]).find? (fun m => m.path == q)
        = ([] : List FileMeta).find? (fun m => m.path == q)
    rw [@List.find?_cons_of_neg _ (fun m => m.path == q) row [] hq]
  | cons m rest ih =>
    by_cases hmp : m.path = p
    · have h1 : ¬ (!(m.path == p)) = true := by simp [hmp]
      have h2 : ¬ (m.path == q) = true := by
        simp only [beq_iff_eq, hmp]
        exact fun h => hne h.symm
      rw [@List.filter_cons_of_neg _ (fun m => !(m.path == p)) m rest h1,
        @List.find?_cons_of_neg _ (fun m => m.path == q) m rest h2]
      exact ih
    · have h1 : (!(m.path == p)) = true := by simp [hmp]
      rw [@List.filter_cons_of_pos _ (fun m => !(m.path == p)) m rest h1,
        List.cons_append]
      by_cases hmq : m.path = q
      · have h2 : (m.path == q) = true := beq_iff_eq.mpr hmq
        rw [@List.find?_cons_of_pos _ (fun m => m.path == q) m _ h2,
          @List.find?_cons_of_pos _ (fun m => m.path == q) m rest h2]
      · have h2 : ¬ (m.path == q) = true := by simp [hmq]
        rw [@List.find?_cons_of_neg _ (fun m => m.path == q) m _ h2,
          @List.find?_cons_of_neg _ (fun m => m.path == q) m rest h2]
        exact ih

/-- After delete-then-insert for a path, `fetchone` on that path sees the
fresh row. -/
theorem find?_replace_self (l : List FileMeta) (row : FileMeta) (p : String)
    (hrow : row.path = p) :
    ((l.filter (fun m => !(m.path == p))) ++ [row]).find? (fun m => m.path == p)
      = some row := by
  induction l with
  | nil =>
    show ([row]).find? (fun m => m.path == p) = some row
    rw [@List.find?_cons_of_pos _ (fun m => m.path == p) row [] (beq_iff_eq.mpr hrow)]
  | cons m rest ih =>
    by_cases hmp : m.path = p
    · have h1 : ¬ (!(m.path == p)) = true := by simp [hmp]
      rw [@List.filter_cons_of_neg _ (fun m => !(m.path == p)) m rest h1]
      exact ih
    · have h1 : (!(m.path == p)) = true := by simp [hmp]
      have h2 : ¬ (m.path == p) = true := by simp [hmp]
      rw [@List.filter_cons_of_pos _ (fun m => !(m.path == p)) m rest h1,
        List.cons_append,
        @List.find?_cons_of_neg _ (fun m => m.path == p) m _ h2]
      exact ih

/-- Filtering the metadata table by a predicate the looked-up path satisfies
does not change what `fetchone` sees for it. -/
theorem find?_filter_keep (l : List FileMeta) (S : List String) (p : String)
    (hp : S.contains p = true) :
    (l.filter (fun m => S.contains m.path)).find? (fun m => m.path == p)
      = l.find? (fun m => m.path == p) := by
  induction l with
  | nil => rfl
  | cons m rest ih =>
    by_cases hmp : m.path = p
    · have hk : (S.contains m.path) = true := by rw [hmp]; exact hp
      rw [@List.filter_cons_of_pos _ (fun m => S.contains m.path) m rest hk,
        @List.find?_cons_of_pos _ (fun m => m.path == p) m _ (beq_iff_eq.mpr hmp),
        @List.find?_cons_of_pos _ (fun m => m.path == p) m rest (beq_iff_eq.mpr hmp)]
    · have h2 : ¬ (m.path == p) = true := by simp [hmp]
      cases hk : S.contains m.path
      · have hk' : ¬ (S.contains m.path) = true := by
          rw [hk]
          exact Bool.false_ne_true
        rw [@List.filter_cons_of_neg _ (fun m => S.contains m.path) m rest hk',
          @List.find?_cons_of_neg _ (fun m => m.path == p) m rest h2]
        exact ih
      · rw [@List.filter_cons_of_pos _ (fun m => S.contains m.path) m rest hk,
          @List.find?_cons_of_neg _ (fun m => m.path == p) m _ h2,
          @List.find?_cons_of_neg _ (fun m => m.path == p) m rest h2]
        exact ih

/-- The operation `index_file` touches no other path's metadata row. -/
theorem findMeta_indexFile_ne (env : Env) (clock : Int) (db : DBState)
    (p q : String) (hne : q ≠ p) :
    findMeta (indexFile env clock db p).2 q = findMeta db q := by
  unfold indexFile
  cases hf : env.fs p with
  | none => rfl
  | some f =>
    obtain ⟨fsize, fmtime, fo⟩ := f
    cases fo with
    | notText => rfl
    | encodingFail e => exact find?_replace_ne _ _ p q rfl hne
    | readFail e => exact find?_replace_ne _ _ p q rfl hne
    | ok enc content => exact find?_replace_ne _ _ p q rfl hne

/-- A successful `index_file` presupposes a readable file whose pipeline
reaches the final insert. -/
theorem indexFile_true (env : Env) (clock : Int) (db : DBState) (p : String)
    (h : (indexFile env clock db p).1 = true) :
    ∃ f enc content, env.fs p = some f ∧ f.outcome = .ok enc content := by
  unfold indexFile at h
  cases hf : env.fs p with
  | none => rw [hf] at h; simp at h
  | some f =>
    obtain ⟨fsize, fmtime, fo⟩ := f
    rw [hf] at h
    cases fo with
    | notText => simp at h
    | encodingFail e => simp at h
    | readFail e => simp at h
    | ok enc content => exact ⟨⟨fsize, fmtime, .ok enc content⟩, enc, content, rfl, rfl⟩

/-- After a successful `index_file`, the metadata row of the path holds the
file's current stats, the detected encoding, and no error. -/
theorem findMeta_indexFile_self (env : Env) (clock : Int) (db : DBState)
    (p : String) (f : FSFile) (enc : String) (content : List Char)
    (hf : env.fs p = some f) (ho : f.outcome = .ok enc content) :
    findMeta (indexFile env clock db p).2 p
      = some ⟨p, f.size, f.mtime, clock, some enc, none⟩ := by
  unfold indexFile
  rw [hf]
  obtain ⟨fsize, fmtime, fo⟩ := f
  cases fo with
  | notText => simp at ho
  | encodingFail e => simp at ho
  | readFail e => simp at ho
  | ok enc' content' =>
    obtain ⟨he, hc⟩ : enc' = enc ∧ content' = content := by
      simpa [IngestOutcome.ok.injEq] using ho
    subst he; subst hc
    exact find?_replace_self _ _ p rfl

/-- When the processing loop finishes without errors, every processed path
ends with the fresh successful metadata row, and no other path's row
changes. -/
theorem processFiles_find (env : Env) (clock : Int) (existing : List String) :
    ∀ (L : List String) (db : DBState),
      (processFiles env clock existing L db).errors = [] →
      ∀ q : String,
        (q ∉ L → findMeta (processFiles env clock existing L db).db q = findMeta db q)
        ∧ (q ∈ L → ∃ f enc content, env.fs q = some f ∧ f.outcome = .ok enc content ∧
             findMeta (processFiles env clock existing L db).db q
               = some ⟨q, f.size, f.mtime, clock, some enc, none⟩) := by
  intro L
  induction L with
  | nil =>
    intro db _ q
    exact ⟨fun _ => rfl, fun hq => absurd hq (List.not_mem_nil q)⟩
  | cons p rest ih =>
    intro db herr q
    have hstep : (indexFile env clock db p).1 = true := by
      by_contra hs
      have hs' : (indexFile env clock db p).1 = false := by
        cases h : (indexFile env clock db p).1
        · rfl
        · exact absurd h hs
      simp only [processFiles, hs', if_false, Bool.false_eq_true] at herr
      exact absurd herr (by simp)
    have hres : (processFiles env clock existing (p :: rest) db).errors
        = (processFiles env clock existing rest (indexFile env clock db p).2).errors
        ∧ (processFiles env clock existing (p :: rest) db).db
          = (processFiles env clock existing rest (indexFile env clock db p).2).db := by
      simp [processFiles, hstep]
    have herr' : (processFiles env clock existing rest (indexFile env clock db p).2).errors
        = [] := by rw [← hres.1]; exact herr
    have ihq := ih (indexFile env clock db p).2 herr' q
    rw [hres.2]
    constructor
    · intro hq
      have hq1 : q ≠ p := fun h => hq (h ▸ List.mem_cons_self p rest)
      have hq2 : q ∉ rest := fun h => hq (List.mem_cons_of_mem p h)
      rw [ihq.1 hq2]
      exact findMeta_indexFile_ne env clock db p q hq1
    · intro hq
      rcases List.mem_cons.mp hq with hq | hq
      · subst hq
        by_cases hqr : q ∈ rest
        · exact ihq.2 hqr
        · obtain ⟨f, enc, content, hf, ho⟩ := indexFile_true env clock db q hstep
          refine ⟨f, enc, content, hf, ho, ?_⟩
          rw [ihq.1 hqr]
          exact findMeta_indexFile_self env clock db q f enc content hf ho
      · exact ihq.2 hq

/-- Two store states with equal tables are equal. -/
theorem dbState_ext {a b : DBState} (h1 : a.documents = b.documents)
    (h2 : a.file_metadata = b.file_metadata) : a = b := by
  cases a
  cases b
  cases h1
  cases h2
  rfl

/-- The full-scan, non-forced branch of `refresh_index`, unfolded. -/
theorem refreshIndex_none_eq (env : Env) (clock dur : Int) (db : DBState) :
    refreshIndex env clock dur none false db =
      ((⟨(processFiles env clock (db.file_metadata.map (·.path))
            (getChangedFiles env db env.scan) db).errors.isEmpty,
          (processFiles env clock (db.file_metadata.map (·.path))
            (getChangedFiles env db env.scan) db).processed,
          (processFiles env clock (db.file_metadata.map (·.path))
            (getChangedFiles env db env.scan) db).added,
          (processFiles env clock (db.file_metadata.map (·.path))
            (getChangedFiles env db env.scan) db).updated,
          (removeDeletedFiles env.scan
            (processFiles env clock (db.file_metadata.map (·.path))
              (getChangedFiles env db env.scan) db).db).1,
          dur,
          (processFiles env clock (db.file_metadata.map (·.path))
            (getChangedFiles env db env.scan) db).errors⟩ : RefreshResult),
        (removeDeletedFiles env.scan
          (processFiles env clock (db.file_metadata.map (·.path))
            (getChangedFiles env db env.scan) db).db).2) := rfl

/-- File stats recorded after an error-free refresh agree with the
filesystem for every scanned path. -/
theorem refresh_scan_meta_matches (env : Env) (clock : Int) (db0 : DBState)
    (hex : ∀ p ∈ env.scan, (env.fs p).isSome = true)
    (herr : (processFiles env clock (db0.file_metadata.map (·.path))
        (getChangedFiles env db0 env.scan) db0).errors = []) :
    ∀ p ∈ env.scan, ∃ f m, env.fs p = some f
      ∧ findMeta (processFiles env clock (db0.file_metadata.map (·.path))
          (getChangedFiles env db0 env.scan) db0).db p = some m
      ∧ m.size = f.size ∧ m.mtime = f.mtime := by
  intro p hp
  obtain ⟨f, hf⟩ := Option.isSome_iff_exists.mp (hex p hp)
  have hfind := processFiles_find env clock (db0.file_metadata.map (·.path))
    (getChangedFiles env db0 env.scan) db0 herr p
  by_cases hw : p ∈ getChangedFiles env db0 env.scan
  · obtain ⟨f', enc, content, hf', ho', hrow⟩ := hfind.2 hw
    have hff : f = f' := by
      rw [hf] at hf'
      exact Option.some_inj.mp hf'
    subst hff
    exact ⟨f, ⟨p, f.size, f.mtime, clock, some enc, none⟩, hf, hrow, rfl, rfl⟩
  · have hkeep : findMeta (processFiles env clock (db0.file_metadata.map (·.path))
        (getChangedFiles env db0 env.scan) db0).db p = findMeta db0 p := hfind.1 hw
    have hpf : changedPred env db0 p = false := by
      rcases Bool.eq_false_or_eq_true (changedPred env db0 p) with h | h
      · exact absurd (List.mem_filter.mpr ⟨hp, h⟩) hw
      · exact h
    unfold changedPred at hpf
    rw [hf] at hpf
    cases hm : findMeta db0 p with
    | none => rw [hm] at hpf; simp at hpf
    | some m =>
      rw [hm] at hpf
      have hsz : m.size = f.size ∧ m.mtime = f.mtime := by
        simpa using hpf
      exact ⟨f, m, hf, hkeep.trans hm, hsz.1, hsz.2⟩

/-- C5: if a full non-forced refresh succeeds and the filesystem is
unchanged, an immediately repeated non-forced refresh processes zero files,
removes zero files, and leaves the store state identical (the second call is
a no-op). -/
theorem c5_quiescent_refresh_noop (env : Env) (ck1 dr1 ck2 dr2 : Int) (db0 : DBState)
    (hex : ∀ p ∈ env.scan, (env.fs p).isSome = true)
    (hok : (refreshIndex env ck1 dr1 none false db0).1.success = true) :
    (refreshIndex env ck2 dr2 none false
        ((refreshIndex env ck1 dr1 none false db0).2)).1.files_processed = 0
    ∧ (refreshIndex env ck2 dr2 none false
        ((refreshIndex env ck1 dr1 none false db0).2)).1.files_removed = 0
    ∧ (refreshIndex env ck2 dr2 none false
        ((refreshIndex env ck1 dr1 none false db0).2)).2
      = (refreshIndex env ck1 dr1 none false db0).2 := by
  have herr : (processFiles env ck1 (db0.file_metadata.map (·.path))
      (getChangedFiles env db0 env.scan) db0).errors = [] := by
    rw [refreshIndex_none_eq] at hok
    simpa [List.isEmpty_iff] using hok
  have hmatch := refresh_scan_meta_matches env ck1 db0 hex herr
  have hdb1 : (refreshIndex env ck1 dr1 none false db0).2
      = (removeDeletedFiles env.scan
          (processFiles env ck1 (db0.file_metadata.map (·.path))
            (getChangedFiles env db0 env.scan) db0).db).2 := by
    rw [refreshIndex_none_eq]
  -- every row kept by the sweep is a scanned path
  have hkeepB : ∀ m ∈ (refreshIndex env ck1 dr1 none false db0).2.file_metadata,
      env.scan.contains m.path = true := by
    intro m hm
    rw [hdb1, removeDeletedFiles_metadata] at hm
    exact (List.mem_filter.mp hm).2
  -- lookups in the swept store agree with the pre-sweep store on scanned paths
  have hlook : ∀ p, env.scan.contains p = true →
      findMeta (refreshIndex env ck1 dr1 none false db0).2 p
        = findMeta (processFiles env ck1 (db0.file_metadata.map (·.path))
            (getChangedFiles env db0 env.scan) db0).db p := by
    intro p hp
    rw [hdb1]
    show ((processFiles env ck1 (db0.file_metadata.map (·.path))
        (getChangedFiles env db0 env.scan) db0).db.file_metadata.filter
          (fun m => env.scan.contains m.path)).find? (fun m => m.path == p) = _
    exact find?_filter_keep _ env.scan p hp
  -- the second change scan finds nothing
  have hW2 : getChangedFiles env (refreshIndex env ck1 dr1 none false db0).2 env.scan
      = [] := by
    unfold getChangedFiles
    rw [List.filter_eq_nil_iff]
    intro p hp
    obtain ⟨f, m, hf, hrow, hsz, hmt⟩ := hmatch p hp
    have hp' : env.scan.contains p = true := by
      simpa using hp
    have : changedPred env (refreshIndex env ck1 dr1 none false db0).2 p = false := by
      unfold changedPred
      rw [hf, hlook p hp', hrow]
      simp [hsz, hmt]
    simp [this]
  -- the second sweep removes nothing and keeps the store intact
  have hstale : (refreshIndex env ck1 dr1 none false db0).2.file_metadata.filter
      (fun m => !(env.scan.contains m.path)) = [] := by
    rw [List.filter_eq_nil_iff]
    intro m hm
    rw [hkeepB m hm]
    simp
  refine ⟨?_, ?_, ?_⟩
  · rw [refreshIndex_none_eq, hW2]
    rfl
  · rw [refreshIndex_none_eq, hW2]
    show (removeDeletedFiles env.scan (refreshIndex env ck1 dr1 none false db0).2).1 = 0
    rw [removeDeletedFiles_count, hstale]
    rfl
  · rw [refreshIndex_none_eq, hW2]
    show (removeDeletedFiles env.scan (refreshIndex env ck1 dr1 none false db0).2).2
      = (refreshIndex env ck1 dr1 none false db0).2
    apply dbState_ext
    · rw [removeDeletedFiles_documents, hstale]
      simp only [List.map_nil]
      rw [List.filter_eq_self]
      intro d _
      rfl
    · rw [removeDeletedFiles_metadata, List.filter_eq_self]
      intro m hm
      exact hkeepB m hm

/-- C5 witness: one clean file `"a"`, indexed on the first refresh; the
repeat is a no-op. -/
theorem c5_witness :
    (∀ p ∈ envQuiet.scan, (envQuiet.fs p).isSome = true)
    ∧ (refreshIndex envQuiet 1 0 none false emptyDB).1.success = true
    ∧ (refreshIndex envQuiet 2 0 none false
        ((refreshIndex envQuiet 1 0 none false emptyDB).2)).1.files_processed = 0
    ∧ (refreshIndex envQuiet 2 0 none false
        ((refreshIndex envQuiet 1 0 none false emptyDB).2)).1.files_removed = 0
    ∧ (refreshIndex envQuiet 2 0 none false
        ((refreshIndex envQuiet 1 0 none false emptyDB).2)).2
      = (refreshIndex envQuiet 1 0 none false emptyDB).2 :=
  ⟨by decide, by decide,
    (c5_quiescent_refresh_noop envQuiet 1 0 2 0 emptyDB (by decide) (by decide)).1,
    (c5_quiescent_refresh_noop envQuiet 1 0 2 0 emptyDB (by decide) (by decide)).2.1,
    (c5_quiescent_refresh_noop envQuiet 1 0 2 0 emptyDB (by decide) (by decide)).2.2⟩

end LocalIndexing
